import Mathlib

/-!
Shallow embedding of the multi-stream upload pipeline of
`src/app/components/ScreenRecorder.tsx` (the variant using
`uploadQueue` / `isUploading` / `pendingBinaryRef`, lines 495-1106 of the
concatenated file).

The mutable refs of the component become fields of `EngineState`; each
WebSocket message handler and each upload routine becomes a function from
state to state paired with the list of outbound messages it sends.  The
browser environment (blob bytes, `crypto.subtle` checksums that may throw)
is abstracted by `Config.prep`, which returns `none` exactly when local
preparation (`blob.arrayBuffer()` / `calculateChecksum`) would throw.
Timestamps and durations are omitted from metadata: they come from the
wall clock and no claim mentions them.
-/

namespace ScreenRecorder

/-- Raw payload bytes of a captured chunk (the `Blob` handed to
`uploadChunk`). -/
abbrev Blob := List Nat

/-- An entry of `uploadQueue.current`
(`{blob, streamType, partNumber}`). -/
structure QueueItem where
  blob : Blob
  streamType : String
  partNumber : Nat
deriving Repr, DecidableEq

/-- The `PendingBinary` interface: the staged in-flight payload held in
`pendingBinaryRef.current`. -/
structure PendingBinary where
  partNumber : Nat
  streamType : String
  data : Blob
deriving Repr, DecidableEq

/-- The `data` payload of a `ready_for_binary` or `chunk_nack` message
(`{part_number, stream_type}`). -/
structure ReadyData where
  part_number : Nat
  stream_type : String
deriving Repr, DecidableEq

/-- The `last_parts_by_stream` record of a `session_recording_initialized`
message; `none` in a field models an absent property (JS `undefined`). -/
structure LastParts where
  screen : Option Nat
  mic_audio : Option Nat
deriving Repr, DecidableEq

/-- The component's mutable refs relevant to the upload pipeline:
`wsRef` (existence and whether `readyState === OPEN`), `assetIdRef`,
`screenPartNumberRef`, `micPartNumberRef`, `pendingBinaryRef`,
`isUploading` and `uploadQueue`. -/
structure EngineState where
  wsExists : Bool
  wsOpen : Bool
  assetId : Option Int
  screenPart : Nat
  micPart : Nat
  pending : Option PendingBinary
  isUploading : Bool
  queue : List QueueItem
deriving Repr, DecidableEq

/-- Environment parameters: `prep` models `blob.arrayBuffer()` followed by
`calculateChecksum`; `none` models a thrown exception (local preparation
failure), `some ck` a successfully computed checksum string. -/
structure Config where
  prep : Blob → Option String

/-- Messages the component sends on the WebSocket: the
`upload_chunk_metadata` JSON message (timestamp/duration omitted, see
module comment) and a raw binary frame. -/
inductive OutMsg where
  | metadata (assetId : Int) (streamType : String) (partNumber : Nat)
      (checksum : String) (dataSize : Nat)
  | binaryFrame (data : Blob)
deriving Repr, DecidableEq

/-- JS truthiness of `assetIdRef.current`: `!assetIdRef.current` is true
for `null` and for `0`. -/
def jsTruthyAsset : Option Int → Bool
  | none => false
  | some a => a != 0

/-- `processUploadQueue`: guard on the in-flight lock and emptiness, take
the head (`shift`), drop the item if the socket or asset id is missing or
the socket is not OPEN, otherwise prepare the payload; on success stage it
as the pending binary and send the metadata message, on a thrown error
clear the pending slot and release the lock (lines 536-588). -/
def processUploadQueue (cfg : Config) (s : EngineState) :
    EngineState × List OutMsg :=
  if s.isUploading then (s, [])
  else
    match s.queue with
    | [] => (s, [])
    | item :: rest =>
      let s1 : EngineState := { s with isUploading := true, queue := rest }
      if !s1.wsExists || !jsTruthyAsset s1.assetId then
        ({ s1 with isUploading := false }, [])
      else if !s1.wsOpen then
        ({ s1 with isUploading := false }, [])
      else
        match cfg.prep item.blob with
        | none => ({ s1 with pending := none, isUploading := false }, [])
        | some ck =>
          ({ s1 with pending := some ⟨item.partNumber, item.streamType, item.blob⟩ },
            [OutMsg.metadata (s1.assetId.getD 0) item.streamType
              item.partNumber ck item.blob.length])

/-- `sendBinaryData` (lines 686-720): no-op when `readyData` is absent or
no matching pending binary exists; on an exact `(part_number, stream_type)`
match, send the staged bytes when the socket is OPEN, and clear the
pending slot whether or not the socket was OPEN. -/
def sendBinaryData (s : EngineState) (readyData : Option ReadyData) :
    EngineState × List OutMsg :=
  match readyData with
  | none => (s, [])
  | some rd =>
    match s.pending with
    | some p =>
      if p.partNumber = rd.part_number ∧ p.streamType = rd.stream_type then
        if s.wsExists && s.wsOpen then
          ({ s with pending := none }, [OutMsg.binaryFrame p.data])
        else
          ({ s with pending := none }, [])
      else (s, [])
    | none => (s, [])

/-- The `session_recording_initialized` handler (lines 617-629): store the
asset id; when `status === 'resuming'` and `last_parts_by_stream` is
present, seed the per-stream counters (`x.screen || 0`). -/
def handleSessionRecInit (s : EngineState) (recordingAssetId : Option Int)
    (status : String) (lastParts : Option LastParts) : EngineState :=
  let s1 : EngineState := { s with assetId := recordingAssetId }
  match lastParts with
  | some lp =>
    if status = "resuming" then
      { s1 with screenPart := lp.screen.getD 0, micPart := lp.mic_audio.getD 0 }
    else s1
  | none => s1

/-- The `chunk_ack` handler (lines 641-646): release the in-flight lock
and call `processUploadQueue`.  It does not touch `pendingBinaryRef`. -/
def handleChunkAck (cfg : Config) (s : EngineState) :
    EngineState × List OutMsg :=
  processUploadQueue cfg { s with isUploading := false }

/-- The `chunk_nack` handler (lines 647-660): clear the pending binary
only when its `(part_number, stream_type)` matches the message's, then
release the lock and call `processUploadQueue`. -/
def handleChunkNack (cfg : Config) (s : EngineState)
    (nackData : Option ReadyData) : EngineState × List OutMsg :=
  let s1 : EngineState :=
    match s.pending, nackData with
    | some p, some nd =>
      if p.partNumber = nd.part_number ∧ p.streamType = nd.stream_type then
        { s with pending := none }
      else s
    | _, _ => s
  processUploadQueue cfg { s1 with isUploading := false }

/-- The queue push of `uploadChunk` (line 726):
`uploadQueue.current.push({blob, streamType, partNumber})`. -/
def enqueue (s : EngineState) (item : QueueItem) : EngineState :=
  { s with queue := s.queue ++ [item] }

/-- `uploadChunk` (lines 725-728): enqueue, then `processUploadQueue`. -/
def uploadChunk (cfg : Config) (s : EngineState) (item : QueueItem) :
    EngineState × List OutMsg :=
  processUploadQueue cfg (enqueue s item)

/-- `uploadScreenChunk` (lines 730-733): increment the screen counter,
then upload with stream type `"screen"` and the incremented number. -/
def uploadScreenChunk (cfg : Config) (s : EngineState) (blob : Blob) :
    EngineState × List OutMsg :=
  let s1 : EngineState := { s with screenPart := s.screenPart + 1 }
  uploadChunk cfg s1 ⟨blob, "screen", s1.screenPart⟩

/-- `uploadMicChunk` (lines 735-738): increment the mic counter, then
upload with stream type `"mic_audio"` and the incremented number. -/
def uploadMicChunk (cfg : Config) (s : EngineState) (blob : Blob) :
    EngineState × List OutMsg :=
  let s1 : EngineState := { s with micPart := s.micPart + 1 }
  uploadChunk cfg s1 ⟨blob, "mic_audio", s1.micPart⟩

/-- External events driving the engine: the protocol messages handled by
`ws.onmessage`, the recorder callbacks that produce chunks, and transport
state changes observed through `wsRef.current.readyState`. -/
inductive Event where
  | sessionRecInit (recordingAssetId : Option Int) (status : String)
      (lastParts : Option LastParts)
  | readyForBinary (readyData : Option ReadyData)
  | chunkAck
  | chunkNack (nackData : Option ReadyData)
  | screenChunk (blob : Blob)
  | micChunk (blob : Blob)
  | wsStateChange (wsE wsO : Bool)
deriving Repr, DecidableEq

/-- One dispatch step of the event-driven engine. -/
def step (cfg : Config) (s : EngineState) : Event → EngineState × List OutMsg
  | .sessionRecInit a st lp => (handleSessionRecInit s a st lp, [])
  | .readyForBinary rd => sendBinaryData s rd
  | .chunkAck => handleChunkAck cfg s
  | .chunkNack nd => handleChunkNack cfg s nd
  | .screenChunk b => uploadScreenChunk cfg s b
  | .micChunk b => uploadMicChunk cfg s b
  | .wsStateChange e o => ({ s with wsExists := e, wsOpen := o }, [])

/-- Run a list of events, accumulating all outbound messages in order. -/
def run (cfg : Config) : EngineState → List Event → EngineState × List OutMsg
  | s, [] => (s, [])
  | s, e :: es =>
    let r1 := step cfg s e
    let r2 := run cfg r1.1 es
    (r2.1, r1.2 ++ r2.2)

/-- State right after `connectWebSocket` succeeds and the socket opens:
socket present and OPEN, no asset id yet, counters at 0, nothing pending,
lock free, empty queue. -/
def initialState : EngineState :=
  { wsExists := true, wsOpen := true, assetId := none, screenPart := 0,
    micPart := 0, pending := none, isUploading := false, queue := [] }

/-- Number of pending transfers held by the engine (the
`pendingBinaryRef` slot holds zero or one `PendingBinary`). -/
def pendingCount (s : EngineState) : Nat :=
  match s.pending with
  | none => 0
  | some _ => 1

/-- The `(stream_type, part_number)` pairs of the metadata messages in an
output trace, in send order. -/
def metadataPairs : List OutMsg → List (String × Nat)
  | [] => []
  | OutMsg.metadata _ st p _ _ :: rest => (st, p) :: metadataPairs rest
  | OutMsg.binaryFrame _ :: rest => metadataPairs rest

/-- Part numbers of the metadata messages of one stream, in send order. -/
def streamParts (st : String) : List OutMsg → List Nat
  | [] => []
  | OutMsg.metadata _ st2 p _ _ :: rest =>
    if st2 = st then p :: streamParts st rest else streamParts st rest
  | OutMsg.binaryFrame _ :: rest => streamParts st rest

/-- Part numbers of one stream's items in a queue, in queue order. -/
def queueParts (st : String) : List QueueItem → List Nat
  | [] => []
  | i :: rest =>
    if i.streamType = st then i.partNumber :: queueParts st rest
    else queueParts st rest

/-- The `(stream_type, part_number)` pairs of a queue, in queue order. -/
def queuePairs (q : List QueueItem) : List (String × Nat) :=
  q.map fun i => (i.streamType, i.partNumber)

/-- `(stream_type, part_number)` pairs enqueued by one event, given the
state the event fires in (chunk events assign counter + 1). -/
def stepEnqueued (s : EngineState) : Event → List (String × Nat)
  | .screenChunk _ => [("screen", s.screenPart + 1)]
  | .micChunk _ => [("mic_audio", s.micPart + 1)]
  | _ => []

/-- All pairs enqueued over a run, in enqueue order. -/
def runEnqueued (cfg : Config) : EngineState → List Event → List (String × Nat)
  | _, [] => []
  | s, e :: es => stepEnqueued s e ++ runEnqueued cfg (step cfg s e).1 es

/-- The consecutive list `[c, c+1, ..., c+n-1]`. -/
def consecFrom (c : Nat) : Nat → List Nat
  | 0 => []
  | n + 1 => c :: consecFrom (c + 1) n

/-- Events usable while the session stays initialized and the transport
stays up: everything except re-initialization and transport degradation. -/
def okEvent : Event → Bool
  | .sessionRecInit _ _ _ => false
  | .wsStateChange e o => e && o
  | _ => true

/-- Per-stream well-formedness of a reachable state, relative to a resume
checkpoint `k` and a count `a` of metadata messages already sent for the
stream: the stream's queued part numbers are the consecutive run following
`k + a`, the stream counter sits at its end, and the transport/asset
readiness needed to keep sending holds. -/
def StreamInv (st : String) (k a : Nat) (s : EngineState) : Prop :=
  ∃ b, queueParts st s.queue = consecFrom (k + a + 1) b ∧
    (if st = "screen" then s.screenPart else s.micPart) = k + a + b ∧
    s.wsExists = true ∧ s.wsOpen = true ∧ jsTruthyAsset s.assetId = true

/-- A concrete environment whose preparation always succeeds. -/
def cfg0 : Config := ⟨fun _ => some "cs"⟩

/-- A concrete environment where preparing the blob `[0]` throws and any
other blob succeeds. -/
def cfgF : Config := ⟨fun b => if b = [0] then none else some "cs"⟩

/-- Concrete trace for the cross-stream FIFO scenario: initialize, enqueue
screen part 1, enqueue mic part 1, server admits screen part 1, server
acks it. -/
def esScenario : List Event :=
  [ .sessionRecInit (some 7) "new" none,
    .screenChunk [1], .micChunk [2],
    .readyForBinary (some ⟨1, "screen"⟩), .chunkAck ]

/-- Concrete trace in which the first screen chunk is produced while the
socket is not OPEN (so it is dropped) and the second after it reopens. -/
def esGap : List Event :=
  [ .sessionRecInit (some 7) "new" none,
    .wsStateChange true false,
    .screenChunk [1],
    .wsStateChange true true,
    .screenChunk [2] ]

/-- A state with a transfer in flight: metadata for screen part 1 sent,
its payload staged, the lock held, the queue empty. -/
def inFlightState : EngineState :=
  { initialState with
    assetId := some 7, isUploading := true,
    pending := some ⟨1, "screen", [5]⟩ }

/-- A state whose queue head has a payload that fails local preparation
under `cfgF`, followed by a second well-formed item. -/
def failHeadState : EngineState :=
  { initialState with
    assetId := some 7,
    queue := [⟨[0], "screen", 1⟩, ⟨[1], "screen", 2⟩] }

/-- A state with a staged screen part 1 payload while the socket is no
longer OPEN. -/
def closedSockState : EngineState :=
  { initialState with
    wsOpen := false, assetId := some 7,
    pending := some ⟨1, "screen", [5]⟩ }

/-- A state with the connection not yet given an asset id and one queued
item, used to exercise the drop-on-unready path. -/
def unreadyState : EngineState :=
  { initialState with
    queue := [⟨[3], "screen", 1⟩] }

/-- Post-initialization state of the resume scenario: the server answered
`session_recording_initialized` with status `resuming` and
`last_parts_by_stream.screen = 4`. -/
def resumedState : EngineState :=
  handleSessionRecInit initialState (some 7) "resuming" (some ⟨some 4, none⟩)

/-! ### Basic lemmas about the queue operation -/

theorem pendingCount_le_one (s : EngineState) : pendingCount s ≤ 1 := by
  unfold pendingCount
  cases s.pending <;> simp

theorem processUploadQueue_noop (cfg : Config) (s : EngineState)
    (h : s.isUploading = true ∨ s.queue = []) :
    processUploadQueue cfg s = (s, []) := by
  rcases h with h | h
  · simp [processUploadQueue, h]
  · cases hb : s.isUploading <;> simp [processUploadQueue, hb, h]

theorem processUploadQueue_drop (cfg : Config) (s : EngineState)
    (item : QueueItem) (rest : List QueueItem)
    (hl : s.isUploading = false) (hq : s.queue = item :: rest)
    (hr : s.wsExists = false ∨ jsTruthyAsset s.assetId = false ∨ s.wsOpen = false) :
    processUploadQueue cfg s = ({ s with queue := rest }, []) := by
  rcases s with ⟨we, wo, ai, sp, mp, pd, iu, q⟩
  simp only at hl hq
  subst hl hq
  rcases hr with h | h | h <;> simp only at h <;>
    cases we <;> cases wo <;> cases hja : jsTruthyAsset ai <;>
      simp_all [processUploadQueue]

theorem processUploadQueue_fail (cfg : Config) (s : EngineState)
    (item : QueueItem) (rest : List QueueItem)
    (hl : s.isUploading = false) (hq : s.queue = item :: rest)
    (hwe : s.wsExists = true) (hwo : s.wsOpen = true)
    (hai : jsTruthyAsset s.assetId = true)
    (hp : cfg.prep item.blob = none) :
    processUploadQueue cfg s = ({ s with queue := rest, pending := none }, []) := by
  rcases s with ⟨we, wo, ai, sp, mp, pd, iu, q⟩
  simp only at hl hq hwe hwo hai
  subst hl hq hwe hwo
  simp [processUploadQueue, hai, hp]

theorem processUploadQueue_send (cfg : Config) (s : EngineState)
    (item : QueueItem) (rest : List QueueItem) (ck : String)
    (hl : s.isUploading = false) (hq : s.queue = item :: rest)
    (hwe : s.wsExists = true) (hwo : s.wsOpen = true)
    (hai : jsTruthyAsset s.assetId = true)
    (hp : cfg.prep item.blob = some ck) :
    processUploadQueue cfg s =
      ({ s with
          queue := rest, isUploading := true,
          pending := some ⟨item.partNumber, item.streamType, item.blob⟩ },
        [OutMsg.metadata (s.assetId.getD 0) item.streamType item.partNumber
          ck item.blob.length]) := by
  rcases s with ⟨we, wo, ai, sp, mp, pd, iu, q⟩
  simp only at hl hq hwe hwo hai ⊢
  subst hl hq hwe hwo
  simp [processUploadQueue, hai, hp]

/-! ### Claim C2 -/

/-- C2: at every instant the number of Pending Transfers is 0 or 1, never
2 or more, and every dispatch step of the engine preserves this: the
`pendingBinaryRef` slot holds at most one staged payload. -/
theorem pending_transfer_at_most_one (cfg : Config) (s : EngineState)
    (e : Event) : pendingCount s ≤ 1 ∧ pendingCount (step cfg s e).1 ≤ 1 :=
  ⟨pendingCount_le_one s, pendingCount_le_one _⟩

/-! ### Claim C5 -/

/-- C5: enqueue always succeeds immediately and appends the segment to
the tail (even while a transfer is in flight, `uploadChunk` only appends
and sends nothing), and the queue-advance operation is idempotent:
invoked while in flight or on an empty queue it leaves the queue, lock,
pending transfer and outbound messages unchanged. -/
theorem enqueue_appends_and_advance_idempotent :
    (∀ s item, (enqueue s item).queue = s.queue ++ [item]) ∧
    (∀ cfg s item, s.isUploading = true →
      uploadChunk cfg s item = ({ s with queue := s.queue ++ [item] }, [])) ∧
    (∀ cfg s, s.isUploading = true ∨ s.queue = [] →
      processUploadQueue cfg s = (s, [])) := by
  refine ⟨fun s item => rfl, fun cfg s item h => ?_,
    fun cfg s h => processUploadQueue_noop cfg s h⟩
  unfold uploadChunk
  rw [processUploadQueue_noop cfg (enqueue s item) (Or.inl h)]
  rfl

theorem enqueue_appends_and_advance_idempotent_witness :
    processUploadQueue cfg0 inFlightState = (inFlightState, []) :=
  enqueue_appends_and_advance_idempotent.2.2 cfg0 inFlightState (Or.inl rfl)

/-! ### Claim C8 -/

/-- C8 counterexample: with the head segment's preparation failing under
`cfgF`, one invocation of `processUploadQueue` drops the head, clears the
pending slot and releases the lock, but sends nothing and leaves the
second item sitting unprocessed in the queue — the queue does not advance
to the next item as the claim states. -/
theorem local_failure_recovery_cex :
    (processUploadQueue cfgF failHeadState).2 = [] ∧
    (processUploadQueue cfgF failHeadState).1.queue = [⟨[1], "screen", 2⟩] ∧
    (processUploadQueue cfgF failHeadState).1.isUploading = false ∧
    (processUploadQueue cfgF failHeadState).1.pending = none := by
  refine ⟨?_, ?_, ?_, ?_⟩ <;> decide

/-- C8 amended: when local preparation of the head segment fails, the
failure is recovered locally — the Pending Transfer slot is cleared, the
in-flight lock is released, and no message about the segment is sent —
but the queue does not advance within this operation: the remaining items
stay queued until the next enqueue, ack or nack invokes the queue again. -/
theorem local_failure_recovery (cfg : Config) (s : EngineState)
    (item : QueueItem) (rest : List QueueItem)
    (hl : s.isUploading = false) (hq : s.queue = item :: rest)
    (hwe : s.wsExists = true) (hwo : s.wsOpen = true)
    (hai : jsTruthyAsset s.assetId = true)
    (hp : cfg.prep item.blob = none) :
    processUploadQueue cfg s = ({ s with queue := rest, pending := none }, []) :=
  processUploadQueue_fail cfg s item rest hl hq hwe hwo hai hp

theorem local_failure_recovery_witness :
    processUploadQueue cfgF failHeadState =
      ({ failHeadState with queue := [⟨[1], "screen", 2⟩], pending := none }, []) :=
  local_failure_recovery cfgF failHeadState ⟨[0], "screen", 1⟩
    [⟨[1], "screen", 2⟩] rfl rfl rfl rfl (by decide) (by decide)

/-! ### Claim C9 -/

/-- C9: a `ready_for_binary` matching the pending transfer's exact
`(stream_type, part_number)` while the socket is not OPEN clears the
Pending Transfer without transmitting any binary frame; afterwards even a
repeat of the same readiness signal is a no-op, so the payload is lost. -/
theorem ready_while_closed_drops_payload (s : EngineState)
    (p : PendingBinary) (rd : ReadyData) (hpend : s.pending = some p)
    (hpn : p.partNumber = rd.part_number) (hst : p.streamType = rd.stream_type)
    (hws : (s.wsExists && s.wsOpen) = false) :
    sendBinaryData s (some rd) = ({ s with pending := none }, []) ∧
    sendBinaryData { s with pending := none } (some rd) =
      ({ s with pending := none }, []) := by
  constructor
  · simp [sendBinaryData, hpend, hpn, hst, hws]
  · simp [sendBinaryData]

theorem ready_while_closed_drops_payload_witness :
    sendBinaryData closedSockState (some ⟨1, "screen"⟩) =
      ({ closedSockState with pending := none }, []) :=
  (ready_while_closed_drops_payload closedSockState ⟨1, "screen", [5]⟩
    ⟨1, "screen"⟩ rfl rfl rfl rfl).1

/-! ### Claim C10 -/

/-- C10: a `ready_for_binary` with no data payload, or received when no
Pending Transfer exists, is a pure no-op: the pending slot, the lock, the
queue and the outbound messages are all unchanged. -/
theorem ready_no_pending_noop :
    (∀ s, sendBinaryData s none = (s, [])) ∧
    (∀ cfg s, step cfg s (.readyForBinary none) = (s, [])) ∧
    (∀ s rd, s.pending = none → sendBinaryData s (some rd) = (s, [])) := by
  refine ⟨fun s => rfl, fun cfg s => rfl, fun s rd h => ?_⟩
  simp [sendBinaryData, h]

theorem ready_no_pending_noop_witness :
    sendBinaryData initialState (some ⟨1, "screen"⟩) = (initialState, []) :=
  ready_no_pending_noop.2.2 initialState ⟨1, "screen"⟩ rfl

theorem handleChunkNack_eq (cfg : Config) (s : EngineState)
    (nd : Option ReadyData) :
    ∃ pd, handleChunkNack cfg s nd =
      processUploadQueue cfg { s with pending := pd, isUploading := false } := by
  rcases s with ⟨we, wo, ai, sp, mp, pd, iu, q⟩
  cases pd with
  | none =>
    refine ⟨none, ?_⟩
    cases nd <;> rfl
  | some p =>
    cases nd with
    | none => exact ⟨some p, rfl⟩
    | some n =>
      by_cases hc : p.partNumber = n.part_number ∧ p.streamType = n.stream_type
      · refine ⟨none, ?_⟩
        simp only [handleChunkNack]
        rw [if_pos hc]
      · refine ⟨some p, ?_⟩
        simp only [handleChunkNack]
        rw [if_neg hc]

theorem processUploadQueue_no_binary (cfg : Config) (s : EngineState)
    (d : Blob) : OutMsg.binaryFrame d ∉ (processUploadQueue cfg s).2 := by
  rcases s with ⟨we, wo, ai, sp, mp, pd, iu, q⟩
  cases iu
  · cases q with
    | nil => simp [processUploadQueue]
    | cons item rest =>
      cases we <;> cases wo <;> cases hja : jsTruthyAsset ai <;>
        cases hp : cfg.prep item.blob <;>
          simp [processUploadQueue, hja, hp]
  · simp [processUploadQueue]

theorem sendBinaryData_binary_mem (s : EngineState) (r : ReadyData) (d : Blob)
    (h : OutMsg.binaryFrame d ∈ (sendBinaryData s (some r)).2) :
    ∃ p, s.pending = some p ∧ p.partNumber = r.part_number ∧
      p.streamType = r.stream_type ∧ p.data = d ∧
      s.wsExists = true ∧ s.wsOpen = true := by
  rcases s with ⟨we, wo, ai, sp, mp, pd, iu, q⟩
  cases pd with
  | none => simp [sendBinaryData] at h
  | some p =>
    simp only [sendBinaryData] at h
    by_cases hc : p.partNumber = r.part_number ∧ p.streamType = r.stream_type
    · rw [if_pos hc] at h
      cases we <;> cases wo <;> simp at h
      exact ⟨p, rfl, hc.1, hc.2, h.symm, rfl, rfl⟩
    · rw [if_neg hc] at h
      simp at h

/-! ### Claim C3 -/

/-- C3 counterexample: the pending transfer for screen part 1 is staged
and a `ready_for_binary` naming exactly `(screen, 1)` arrives, yet no
binary frame is sent because the socket is not OPEN — refuting the "if"
direction of the claimed iff. -/
theorem binary_iff_matching_ready_cex :
    closedSockState.pending = some ⟨1, "screen", [5]⟩ ∧
    (sendBinaryData closedSockState (some ⟨1, "screen"⟩)).2 = [] := by
  constructor <;> decide

/-- C3 amended: a binary frame is transmitted only in the step handling a
`ready_for_binary` that names the exact `(stream_type, part_number)` of
the pending transfer while the socket is OPEN (and conversely such a
matching signal with the socket OPEN always transmits the staged bytes);
a non-matching readiness signal sends nothing and leaves the Pending
Transfer untouched.  When the socket is not OPEN, a matching signal sends
nothing and clears the pending transfer (claim C9). -/
theorem binary_iff_matching_ready :
    (∀ cfg s e d, OutMsg.binaryFrame d ∈ (step cfg s e).2 →
      ∃ rd p, e = Event.readyForBinary (some rd) ∧ s.pending = some p ∧
        p.partNumber = rd.part_number ∧ p.streamType = rd.stream_type ∧
        p.data = d ∧ s.wsExists = true ∧ s.wsOpen = true) ∧
    (∀ s p rd, s.pending = some p → p.partNumber = rd.part_number →
      p.streamType = rd.stream_type → s.wsExists = true → s.wsOpen = true →
      sendBinaryData s (some rd) =
        ({ s with pending := none }, [OutMsg.binaryFrame p.data])) ∧
    (∀ s p rd, s.pending = some p →
      ¬(p.partNumber = rd.part_number ∧ p.streamType = rd.stream_type) →
      sendBinaryData s (some rd) = (s, [])) := by
  refine ⟨fun cfg s e d h => ?_, fun s p rd hpend hpn hst hwe hwo => ?_,
    fun s p rd hpend hc => ?_⟩
  · cases e with
    | sessionRecInit a st lp => simp [step] at h
    | readyForBinary rd =>
      cases rd with
      | none => simp [step, sendBinaryData] at h
      | some r =>
        obtain ⟨p, hp, h1, h2, h3, h4, h5⟩ := sendBinaryData_binary_mem s r d h
        exact ⟨r, p, rfl, hp, h1, h2, h3, h4, h5⟩
    | chunkAck => exact absurd h (processUploadQueue_no_binary cfg _ d)
    | chunkNack nd => exact absurd h (processUploadQueue_no_binary cfg _ d)
    | screenChunk b => exact absurd h (processUploadQueue_no_binary cfg _ d)
    | micChunk b => exact absurd h (processUploadQueue_no_binary cfg _ d)
    | wsStateChange we wo => simp [step] at h
  · rcases s with ⟨we, wo, ai, sp, mp, pd, iu, q⟩
    simp only at hpend hwe hwo
    subst hpend hwe hwo
    simp [sendBinaryData, hpn, hst]
  · rcases s with ⟨we, wo, ai, sp, mp, pd, iu, q⟩
    simp only at hpend
    subst hpend
    simp only [sendBinaryData]
    rw [if_neg hc]

theorem binary_iff_matching_ready_witness :
    sendBinaryData { closedSockState with wsOpen := true } (some ⟨1, "screen"⟩) =
      ({ closedSockState with wsOpen := true, pending := none },
        [OutMsg.binaryFrame [5]]) :=
  binary_iff_matching_ready.2.1 { closedSockState with wsOpen := true }
    ⟨1, "screen", [5]⟩ ⟨1, "screen"⟩ rfl rfl rfl rfl rfl

/-! ### Claim C4 -/

/-- C4 counterexample: with a transfer pending and the queue empty, a
`chunk_ack` leaves the Pending Transfer in place (the handler never
clears it), and a `chunk_nack` naming a different part number also leaves
it in place — refuting "every chunk_ack and every chunk_nack ... clears
the Pending Transfer". -/
theorem ack_nack_clear_and_advance_cex :
    inFlightState.pending = some ⟨1, "screen", [5]⟩ ∧
    (handleChunkAck cfg0 inFlightState).1.pending = some ⟨1, "screen", [5]⟩ ∧
    (handleChunkNack cfg0 inFlightState (some ⟨2, "screen"⟩)).1.pending =
      some ⟨1, "screen", [5]⟩ := by
  refine ⟨?_, ?_, ?_⟩ <;> decide

/-- C4 amended: both `chunk_ack` and `chunk_nack` release the in-flight
lock and immediately invoke the queue advance, so with a non-empty queue
whose head is sendable the next item's metadata goes out within the same
step (proven for `chunk_ack` in the fourth component and for every
`chunk_nack` in the fifth); but only a `chunk_nack` whose
`(part_number, stream_type)` matches the pending transfer clears the
Pending Transfer — `chunk_ack` leaves the slot untouched (it is normally
already cleared by the preceding binary send), as does a non-matching
`chunk_nack`. -/
theorem ack_nack_unlock_and_advance :
    (∀ cfg s, s.queue = [] →
      handleChunkAck cfg s = ({ s with isUploading := false }, [])) ∧
    (∀ cfg s nd p, s.queue = [] → s.pending = some p →
      p.partNumber = nd.part_number → p.streamType = nd.stream_type →
      handleChunkNack cfg s (some nd) =
        ({ s with pending := none, isUploading := false }, [])) ∧
    (∀ cfg s nd p, s.queue = [] → s.pending = some p →
      ¬(p.partNumber = nd.part_number ∧ p.streamType = nd.stream_type) →
      handleChunkNack cfg s (some nd) = ({ s with isUploading := false }, [])) ∧
    (∀ cfg s item rest ck, s.queue = item :: rest → s.wsExists = true →
      s.wsOpen = true → jsTruthyAsset s.assetId = true →
      cfg.prep item.blob = some ck →
      (handleChunkAck cfg s).2 =
        [OutMsg.metadata (s.assetId.getD 0) item.streamType item.partNumber
          ck item.blob.length] ∧
      (handleChunkAck cfg s).1.isUploading = true ∧
      (handleChunkAck cfg s).1.queue = rest) ∧
    (∀ cfg s nd item rest ck, s.queue = item :: rest → s.wsExists = true →
      s.wsOpen = true → jsTruthyAsset s.assetId = true →
      cfg.prep item.blob = some ck →
      (handleChunkNack cfg s nd).2 =
        [OutMsg.metadata (s.assetId.getD 0) item.streamType item.partNumber
          ck item.blob.length] ∧
      (handleChunkNack cfg s nd).1.isUploading = true ∧
      (handleChunkNack cfg s nd).1.queue = rest) := by
  refine ⟨fun cfg s h => ?_, fun cfg s nd p hq hpend hpn hst => ?_,
    fun cfg s nd p hq hpend hc => ?_,
    fun cfg s item rest ck hq hwe hwo hai hp => ?_,
    fun cfg s nd item rest ck hq hwe hwo hai hp => ?_⟩
  · unfold handleChunkAck
    exact processUploadQueue_noop cfg _ (Or.inr h)
  · rcases s with ⟨we, wo, ai, sp, mp, pd, iu, qu⟩
    simp only at hq hpend
    subst hq hpend
    simp only [handleChunkNack]
    rw [if_pos (And.intro hpn hst)]
    exact processUploadQueue_noop cfg _ (Or.inr rfl)
  · rcases s with ⟨we, wo, ai, sp, mp, pd, iu, qu⟩
    simp only at hq hpend
    subst hq hpend
    simp only [handleChunkNack]
    rw [if_neg hc]
    exact processUploadQueue_noop cfg _ (Or.inr rfl)
  · unfold handleChunkAck
    rw [processUploadQueue_send cfg { s with isUploading := false } item rest ck
      rfl hq hwe hwo hai hp]
    exact ⟨rfl, rfl, rfl⟩
  · obtain ⟨pd, hpd⟩ := handleChunkNack_eq cfg s nd
    rw [hpd, processUploadQueue_send cfg
      { s with pending := pd, isUploading := false } item rest ck
      rfl hq hwe hwo hai hp]
    exact ⟨rfl, rfl, rfl⟩

theorem ack_nack_unlock_and_advance_witness :
    handleChunkNack cfg0 inFlightState (some ⟨1, "screen"⟩) =
      ({ inFlightState with pending := none, isUploading := false }, []) :=
  ack_nack_unlock_and_advance.2.1 cfg0 inFlightState ⟨1, "screen"⟩
    ⟨1, "screen", [5]⟩ rfl rfl rfl rfl

/-! ### Trace machinery: homomorphisms, preserved fields, FIFO sublist -/

theorem metadataPairs_append (o1 o2 : List OutMsg) :
    metadataPairs (o1 ++ o2) = metadataPairs o1 ++ metadataPairs o2 := by
  induction o1 with
  | nil => rfl
  | cons m rest ih => cases m <;> simp [metadataPairs, ih]

theorem streamParts_append (st : String) (o1 o2 : List OutMsg) :
    streamParts st (o1 ++ o2) = streamParts st o1 ++ streamParts st o2 := by
  induction o1 with
  | nil => rfl
  | cons m rest ih =>
    cases m with
    | metadata a st2 p ck sz =>
      by_cases h : st2 = st <;> simp [streamParts, h, ih]
    | binaryFrame d => simp [streamParts, ih]

theorem queueParts_append (st : String) (q1 q2 : List QueueItem) :
    queueParts st (q1 ++ q2) = queueParts st q1 ++ queueParts st q2 := by
  induction q1 with
  | nil => rfl
  | cons i rest ih =>
    by_cases h : i.streamType = st <;> simp [queueParts, h, ih]

theorem queuePairs_append (q1 q2 : List QueueItem) :
    queuePairs (q1 ++ q2) = queuePairs q1 ++ queuePairs q2 := by
  simp [queuePairs]

theorem consecFrom_append (m : Nat) : ∀ c n : Nat,
    consecFrom c m ++ consecFrom (c + m) n = consecFrom c (m + n) := by
  induction m with
  | zero => intro c n; simp [consecFrom]
  | succ p ih =>
    intro c n
    have h1 : c + (p + 1) = (c + 1) + p := by omega
    have h2 : p + 1 + n = (p + n) + 1 := by omega
    simp only [consecFrom, List.cons_append, h1, h2, ih (c + 1) n]

theorem run_cons (cfg : Config) (s : EngineState) (e : Event)
    (es : List Event) :
    run cfg s (e :: es) =
      ((run cfg (step cfg s e).1 es).1,
        (step cfg s e).2 ++ (run cfg (step cfg s e).1 es).2) := rfl

theorem sendBinaryData_fields (s : EngineState) (rd : Option ReadyData) :
    (sendBinaryData s rd).1.queue = s.queue ∧
    (sendBinaryData s rd).1.screenPart = s.screenPart ∧
    (sendBinaryData s rd).1.micPart = s.micPart ∧
    (sendBinaryData s rd).1.wsExists = s.wsExists ∧
    (sendBinaryData s rd).1.wsOpen = s.wsOpen ∧
    (sendBinaryData s rd).1.assetId = s.assetId ∧
    metadataPairs (sendBinaryData s rd).2 = [] ∧
    (∀ st, streamParts st (sendBinaryData s rd).2 = []) := by
  rcases s with ⟨we, wo, ai, sp, mp, pd, iu, q⟩
  cases rd with
  | none => simp [sendBinaryData, metadataPairs, streamParts]
  | some r =>
    cases pd with
    | none => simp [sendBinaryData, metadataPairs, streamParts]
    | some p =>
      by_cases hc : p.partNumber = r.part_number ∧ p.streamType = r.stream_type <;>
        cases we <;> cases wo <;>
          simp [sendBinaryData, hc, metadataPairs, streamParts]

theorem handleSessionRecInit_queue (s : EngineState) (a : Option Int)
    (st : String) (lp : Option LastParts) :
    (handleSessionRecInit s a st lp).queue = s.queue := by
  unfold handleSessionRecInit
  cases lp with
  | none => rfl
  | some l => by_cases h : st = "resuming" <;> simp [h]

theorem processUploadQueue_fields (cfg : Config) (s : EngineState) :
    (processUploadQueue cfg s).1.wsExists = s.wsExists ∧
    (processUploadQueue cfg s).1.wsOpen = s.wsOpen ∧
    (processUploadQueue cfg s).1.assetId = s.assetId ∧
    (processUploadQueue cfg s).1.screenPart = s.screenPart ∧
    (processUploadQueue cfg s).1.micPart = s.micPart := by
  rcases s with ⟨we, wo, ai, sp, mp, pd, iu, q⟩
  cases iu
  · cases q with
    | nil => simp [processUploadQueue]
    | cons item rest =>
      cases we <;> cases wo <;> cases hja : jsTruthyAsset ai <;>
        cases hp : cfg.prep item.blob <;>
          simp [processUploadQueue, hja, hp]
  · simp [processUploadQueue]

theorem processUploadQueue_sublist (cfg : Config) (s : EngineState) :
    List.Sublist
      (metadataPairs (processUploadQueue cfg s).2 ++
        queuePairs (processUploadQueue cfg s).1.queue)
      (queuePairs s.queue) := by
  rcases s with ⟨we, wo, ai, sp, mp, pd, iu, q⟩
  cases iu
  · cases q with
    | nil => simp [processUploadQueue, metadataPairs]
    | cons item rest =>
      cases we <;> cases wo <;> cases hja : jsTruthyAsset ai <;>
        cases hp : cfg.prep item.blob <;>
          simp [processUploadQueue, hja, hp, metadataPairs, queuePairs]
  · simp only [processUploadQueue, if_pos rfl]
    simp [metadataPairs]

theorem step_sublist (cfg : Config) (s : EngineState) (e : Event) :
    List.Sublist
      (metadataPairs (step cfg s e).2 ++ queuePairs (step cfg s e).1.queue)
      (queuePairs s.queue ++ stepEnqueued s e) := by
  cases e with
  | sessionRecInit a st lp =>
    simp [step, stepEnqueued, metadataPairs, handleSessionRecInit_queue]
  | readyForBinary rd =>
    have h := sendBinaryData_fields s rd
    simp [step, stepEnqueued, h.1, h.2.2.2.2.2.2.1]
  | chunkAck =>
    simpa [step, stepEnqueued, handleChunkAck] using
      processUploadQueue_sublist cfg { s with isUploading := false }
  | chunkNack nd =>
    obtain ⟨pd, hpd⟩ := handleChunkNack_eq cfg s nd
    simpa [step, stepEnqueued, hpd] using
      processUploadQueue_sublist cfg { s with pending := pd, isUploading := false }
  | screenChunk b =>
    have h := processUploadQueue_sublist cfg
      (enqueue { s with screenPart := s.screenPart + 1 }
        ⟨b, "screen", s.screenPart + 1⟩)
    simp only [enqueue, queuePairs_append] at h
    simpa [step, stepEnqueued, uploadScreenChunk, uploadChunk, enqueue,
      queuePairs] using h
  | micChunk b =>
    have h := processUploadQueue_sublist cfg
      (enqueue { s with micPart := s.micPart + 1 }
        ⟨b, "mic_audio", s.micPart + 1⟩)
    simp only [enqueue, queuePairs_append] at h
    simpa [step, stepEnqueued, uploadMicChunk, uploadChunk, enqueue,
      queuePairs] using h
  | wsStateChange we wo =>
    simp [step, stepEnqueued, metadataPairs]

theorem run_sublist (cfg : Config) : ∀ (es : List Event) (s : EngineState),
    List.Sublist
      (metadataPairs (run cfg s es).2 ++ queuePairs (run cfg s es).1.queue)
      (queuePairs s.queue ++ runEnqueued cfg s es) := by
  intro es
  induction es with
  | nil => intro s; simp [run, runEnqueued, metadataPairs]
  | cons e rest ih =>
    intro s
    rw [run_cons]
    simp only [runEnqueued, metadataPairs_append]
    rw [List.append_assoc]
    have h1 := ih (step cfg s e).1
    have h2 := step_sublist cfg s e
    have ha := (List.Sublist.refl (metadataPairs (step cfg s e).2)).append h1
    have hb :
        List.Sublist
          (metadataPairs (step cfg s e).2 ++
            (queuePairs (step cfg s e).1.queue ++
              runEnqueued cfg (step cfg s e).1 rest))
          (queuePairs s.queue ++
            (stepEnqueued s e ++ runEnqueued cfg (step cfg s e).1 rest)) := by
      rw [← List.append_assoc, ← List.append_assoc]
      exact h2.append (List.Sublist.refl _)
    exact ha.trans hb

/-! ### Claim C6 -/

/-- C6: when the queue advance fires while the connection is not ready
(socket missing, asset id not truthy, or socket not OPEN), the head item
is removed and discarded with no metadata or binary sent; and a segment
that is in neither the queue nor the enqueues of the remaining trace is
never sent and never reappears in the queue — dropped segments are not
retried. -/
theorem unready_drop_discards :
    (∀ cfg s item rest, s.isUploading = false → s.queue = item :: rest →
      (s.wsExists = false ∨ jsTruthyAsset s.assetId = false ∨ s.wsOpen = false) →
      processUploadQueue cfg s = ({ s with queue := rest }, [])) ∧
    (∀ cfg s es pr, pr ∉ queuePairs s.queue →
      pr ∉ runEnqueued cfg s es →
      pr ∉ metadataPairs (run cfg s es).2 ∧
      pr ∉ queuePairs (run cfg s es).1.queue) := by
  refine ⟨fun cfg s item rest hl hq hr =>
    processUploadQueue_drop cfg s item rest hl hq hr,
    fun cfg s es pr h1 h2 => ?_⟩
  have hsub := (run_sublist cfg es s).subset
  constructor
  · intro hm
    rcases List.mem_append.mp (hsub (List.mem_append_left _ hm)) with h | h
    · exact h1 h
    · exact h2 h
  · intro hm
    rcases List.mem_append.mp (hsub (List.mem_append_right _ hm)) with h | h
    · exact h1 h
    · exact h2 h

theorem unready_drop_discards_witness :
    processUploadQueue cfg0 unreadyState = ({ unreadyState with queue := [] }, []) :=
  unready_drop_discards.1 cfg0 unreadyState ⟨[3], "screen", 1⟩ []
    rfl rfl (Or.inr (Or.inl rfl))

/-! ### Claim C7 -/

/-- C7: the upload queue is a strict FIFO ordered by enqueue time across
streams: the `(stream_type, part_number)` pairs of the metadata messages
sent over any run form a subsequence of the enqueue-order sequence; and
in the concrete scenario where a screen part 1 and a mic_audio part 1 are
enqueued in that order, screen's metadata goes out first and mic_audio's
metadata goes out only after screen's ack (here: metadata screen 1,
binary frame, then metadata mic_audio 1, in exactly that order). -/
theorem fifo_enqueue_order (cfg : Config) (es : List Event) :
    List.Sublist (metadataPairs (run cfg initialState es).2)
      (runEnqueued cfg initialState es) ∧
    (run cfg0 initialState esScenario).2 =
      [OutMsg.metadata 7 "screen" 1 "cs" 1, OutMsg.binaryFrame [1],
        OutMsg.metadata 7 "mic_audio" 1 "cs" 1] := by
  constructor
  · have hs := run_sublist cfg es initialState
    have h0 : queuePairs initialState.queue = [] := rfl
    rw [h0, List.nil_append] at hs
    exact (List.sublist_append_left _ _).trans hs
  · decide

/-! ### Consecutive part numbers (claim C1 machinery) -/

theorem ctr_congr (st : String) (s t : EngineState)
    (h1 : s.screenPart = t.screenPart) (h2 : s.micPart = t.micPart) :
    (if st = "screen" then s.screenPart else s.micPart) =
      (if st = "screen" then t.screenPart else t.micPart) := by
  split
  · exact h1
  · exact h2

theorem processUploadQueue_consec (cfg : Config)
    (hprep : ∀ bl, (cfg.prep bl).isSome = true)
    (s : EngineState) (st : String) (c b : Nat)
    (hq : queueParts st s.queue = consecFrom c b)
    (hwe : s.wsExists = true) (hwo : s.wsOpen = true)
    (hai : jsTruthyAsset s.assetId = true) :
    ∃ a2 b2, b = a2 + b2 ∧
      streamParts st (processUploadQueue cfg s).2 = consecFrom c a2 ∧
      queueParts st (processUploadQueue cfg s).1.queue =
        consecFrom (c + a2) b2 := by
  cases hiu : s.isUploading with
  | true =>
    rw [processUploadQueue_noop cfg s (Or.inl hiu)]
    exact ⟨0, b, (Nat.zero_add b).symm, rfl, by simpa using hq⟩
  | false =>
    cases hqu : s.queue with
    | nil =>
      rw [processUploadQueue_noop cfg s (Or.inr hqu)]
      exact ⟨0, b, (Nat.zero_add b).symm, rfl, by simpa using hq⟩
    | cons item rest =>
      obtain ⟨ck, hck⟩ := Option.isSome_iff_exists.mp (hprep item.blob)
      rw [processUploadQueue_send cfg s item rest ck hiu hqu hwe hwo hai hck]
      rw [hqu] at hq
      by_cases hsm : item.streamType = st
      · cases b with
        | zero => simp [queueParts, hsm, consecFrom] at hq
        | succ b2 =>
          simp only [queueParts, consecFrom] at hq
          rw [if_pos hsm] at hq
          rw [List.cons.injEq] at hq
          obtain ⟨hq1, hq2⟩ := hq
          refine ⟨1, b2, by omega, ?_, ?_⟩
          · simp [streamParts, hsm, consecFrom, hq1]
          · simpa using hq2
      · refine ⟨0, b, (Nat.zero_add b).symm, ?_, ?_⟩
        · simp [streamParts, hsm, consecFrom]
        · simp only [queueParts] at hq
          rw [if_neg hsm] at hq
          simpa using hq

theorem step_consec (cfg : Config)
    (hprep : ∀ bl, (cfg.prep bl).isSome = true) (st : String)
    (hst : st = "screen" ∨ st = "mic_audio") (k a : Nat)
    (s : EngineState) (e : Event) (he : okEvent e = true)
    (hinv : StreamInv st k a s) :
    ∃ a2, streamParts st (step cfg s e).2 = consecFrom (k + a + 1) a2 ∧
      StreamInv st k (a + a2) (step cfg s e).1 := by
  obtain ⟨b, hq, hctr, hwe, hwo, hai⟩ := hinv
  cases e with
  | sessionRecInit x y z => simp [okEvent] at he
  | wsStateChange we2 wo2 =>
    simp only [okEvent, Bool.and_eq_true] at he
    obtain ⟨h1, h2⟩ := he
    subst h1 h2
    refine ⟨0, rfl, b, ?_, ?_, rfl, rfl, ?_⟩
    · exact hq
    · exact hctr
    · exact hai
  | readyForBinary rd =>
    obtain ⟨hfq, hfs, hfm, hfe, hfo, hfa, hfmeta, hfsp⟩ :=
      sendBinaryData_fields s rd
    refine ⟨0, ?_, b, ?_, ?_, ?_, ?_, ?_⟩
    · show streamParts st (sendBinaryData s rd).2 = _
      rw [hfsp st]; rfl
    · show queueParts st (sendBinaryData s rd).1.queue = _
      rw [hfq]; exact hq
    · show (if st = "screen" then (sendBinaryData s rd).1.screenPart
          else (sendBinaryData s rd).1.micPart) = _
      rw [ctr_congr st _ s hfs hfm]; exact hctr
    · show (sendBinaryData s rd).1.wsExists = true
      rw [hfe]; exact hwe
    · show (sendBinaryData s rd).1.wsOpen = true
      rw [hfo]; exact hwo
    · show jsTruthyAsset (sendBinaryData s rd).1.assetId = true
      rw [hfa]; exact hai
  | chunkAck =>
    have hstep : step cfg s Event.chunkAck =
        processUploadQueue cfg { s with isUploading := false } := rfl
    rw [hstep]
    obtain ⟨a2, b2, hb, ho, hqr⟩ := processUploadQueue_consec cfg hprep
      { s with isUploading := false } st (k + a + 1) b hq hwe hwo hai
    obtain ⟨hpe, hpo, hpa, hps, hpm⟩ :=
      processUploadQueue_fields cfg { s with isUploading := false }
    refine ⟨a2, ho, b2, ?_, ?_, ?_, ?_, ?_⟩
    · have harith : k + (a + a2) + 1 = (k + a + 1) + a2 := by omega
      rw [harith]; exact hqr
    · rw [ctr_congr st _ s hps hpm, hctr]; omega
    · rw [hpe]; exact hwe
    · rw [hpo]; exact hwo
    · rw [hpa]; exact hai
  | chunkNack nd =>
    obtain ⟨pd, hpd⟩ := handleChunkNack_eq cfg s nd
    have hstep : step cfg s (Event.chunkNack nd) =
        processUploadQueue cfg { s with pending := pd, isUploading := false } := hpd
    rw [hstep]
    obtain ⟨a2, b2, hb, ho, hqr⟩ := processUploadQueue_consec cfg hprep
      { s with pending := pd, isUploading := false } st (k + a + 1) b hq hwe hwo hai
    obtain ⟨hpe, hpo, hpa, hps, hpm⟩ :=
      processUploadQueue_fields cfg { s with pending := pd, isUploading := false }
    refine ⟨a2, ho, b2, ?_, ?_, ?_, ?_, ?_⟩
    · have harith : k + (a + a2) + 1 = (k + a + 1) + a2 := by omega
      rw [harith]; exact hqr
    · rw [ctr_congr st _ s hps hpm, hctr]; omega
    · rw [hpe]; exact hwe
    · rw [hpo]; exact hwo
    · rw [hpa]; exact hai
  | screenChunk bl =>
    have hstep : step cfg s (Event.screenChunk bl) =
        processUploadQueue cfg
          (enqueue { s with screenPart := s.screenPart + 1 }
            ⟨bl, "screen", s.screenPart + 1⟩) := rfl
    rw [hstep]
    rcases hst with hsc | hsc
    · subst hsc
      rw [if_pos rfl] at hctr
      have hq2 : queueParts "screen"
          (enqueue { s with screenPart := s.screenPart + 1 }
            ⟨bl, "screen", s.screenPart + 1⟩).queue =
          consecFrom (k + a + 1) (b + 1) := by
        show queueParts "screen"
          (s.queue ++ [⟨bl, "screen", s.screenPart + 1⟩]) = _
        rw [queueParts_append, hq]
        have h1 : queueParts "screen" [⟨bl, "screen", s.screenPart + 1⟩] =
            consecFrom ((k + a + 1) + b) 1 := by
          simp [queueParts, consecFrom, hctr]
          omega
        rw [h1, consecFrom_append]
      obtain ⟨a2, b2, hb, ho, hqr⟩ := processUploadQueue_consec cfg hprep
        (enqueue { s with screenPart := s.screenPart + 1 }
          ⟨bl, "screen", s.screenPart + 1⟩) "screen" (k + a + 1) (b + 1)
        hq2 hwe hwo hai
      obtain ⟨hpe, hpo, hpa, hps, hpm⟩ := processUploadQueue_fields cfg
        (enqueue { s with screenPart := s.screenPart + 1 }
          ⟨bl, "screen", s.screenPart + 1⟩)
      refine ⟨a2, ho, b2, ?_, ?_, ?_, ?_, ?_⟩
      · have harith : k + (a + a2) + 1 = (k + a + 1) + a2 := by omega
        rw [harith]; exact hqr
      · rw [if_pos rfl, hps]
        show s.screenPart + 1 = _
        omega
      · rw [hpe]; exact hwe
      · rw [hpo]; exact hwo
      · rw [hpa]; exact hai
    · subst hsc
      rw [if_neg (by decide)] at hctr
      have hq2 : queueParts "mic_audio"
          (enqueue { s with screenPart := s.screenPart + 1 }
            ⟨bl, "screen", s.screenPart + 1⟩).queue =
          consecFrom (k + a + 1) b := by
        show queueParts "mic_audio"
          (s.queue ++ [⟨bl, "screen", s.screenPart + 1⟩]) = _
        rw [queueParts_append, hq]
        simp [queueParts]
      obtain ⟨a2, b2, hb, ho, hqr⟩ := processUploadQueue_consec cfg hprep
        (enqueue { s with screenPart := s.screenPart + 1 }
          ⟨bl, "screen", s.screenPart + 1⟩) "mic_audio" (k + a + 1) b
        hq2 hwe hwo hai
      obtain ⟨hpe, hpo, hpa, hps, hpm⟩ := processUploadQueue_fields cfg
        (enqueue { s with screenPart := s.screenPart + 1 }
          ⟨bl, "screen", s.screenPart + 1⟩)
      refine ⟨a2, ho, b2, ?_, ?_, ?_, ?_, ?_⟩
      · have harith : k + (a + a2) + 1 = (k + a + 1) + a2 := by omega
        rw [harith]; exact hqr
      · rw [if_neg (by decide), hpm]
        show s.micPart = _
        omega
      · rw [hpe]; exact hwe
      · rw [hpo]; exact hwo
      · rw [hpa]; exact hai
  | micChunk bl =>
    have hstep : step cfg s (Event.micChunk bl) =
        processUploadQueue cfg
          (enqueue { s with micPart := s.micPart + 1 }
            ⟨bl, "mic_audio", s.micPart + 1⟩) := rfl
    rw [hstep]
    rcases hst with hsc | hsc
    · subst hsc
      rw [if_pos rfl] at hctr
      have hq2 : queueParts "screen"
          (enqueue { s with micPart := s.micPart + 1 }
            ⟨bl, "mic_audio", s.micPart + 1⟩).queue =
          consecFrom (k + a + 1) b := by
        show queueParts "screen"
          (s.queue ++ [⟨bl, "mic_audio", s.micPart + 1⟩]) = _
        rw [queueParts_append, hq]
        simp [queueParts]
      obtain ⟨a2, b2, hb, ho, hqr⟩ := processUploadQueue_consec cfg hprep
        (enqueue { s with micPart := s.micPart + 1 }
          ⟨bl, "mic_audio", s.micPart + 1⟩) "screen" (k + a + 1) b
        hq2 hwe hwo hai
      obtain ⟨hpe, hpo, hpa, hps, hpm⟩ := processUploadQueue_fields cfg
        (enqueue { s with micPart := s.micPart + 1 }
          ⟨bl, "mic_audio", s.micPart + 1⟩)
      refine ⟨a2, ho, b2, ?_, ?_, ?_, ?_, ?_⟩
      · have harith : k + (a + a2) + 1 = (k + a + 1) + a2 := by omega
        rw [harith]; exact hqr
      · rw [if_pos rfl, hps]
        show s.screenPart = _
        omega
      · rw [hpe]; exact hwe
      · rw [hpo]; exact hwo
      · rw [hpa]; exact hai
    · subst hsc
      rw [if_neg (by decide)] at hctr
      have hq2 : queueParts "mic_audio"
          (enqueue { s with micPart := s.micPart + 1 }
            ⟨bl, "mic_audio", s.micPart + 1⟩).queue =
          consecFrom (k + a + 1) (b + 1) := by
        show queueParts "mic_audio"
          (s.queue ++ [⟨bl, "mic_audio", s.micPart + 1⟩]) = _
        rw [queueParts_append, hq]
        have h1 : queueParts "mic_audio" [⟨bl, "mic_audio", s.micPart + 1⟩] =
            consecFrom ((k + a + 1) + b) 1 := by
          simp [queueParts, consecFrom, hctr]
          omega
        rw [h1, consecFrom_append]
      obtain ⟨a2, b2, hb, ho, hqr⟩ := processUploadQueue_consec cfg hprep
        (enqueue { s with micPart := s.micPart + 1 }
          ⟨bl, "mic_audio", s.micPart + 1⟩) "mic_audio" (k + a + 1) (b + 1)
        hq2 hwe hwo hai
      obtain ⟨hpe, hpo, hpa, hps, hpm⟩ := processUploadQueue_fields cfg
        (enqueue { s with micPart := s.micPart + 1 }
          ⟨bl, "mic_audio", s.micPart + 1⟩)
      refine ⟨a2, ho, b2, ?_, ?_, ?_, ?_, ?_⟩
      · have harith : k + (a + a2) + 1 = (k + a + 1) + a2 := by omega
        rw [harith]; exact hqr
      · rw [if_neg (by decide), hpm]
        show s.micPart + 1 = _
        omega
      · rw [hpe]; exact hwe
      · rw [hpo]; exact hwo
      · rw [hpa]; exact hai

theorem run_consec (cfg : Config)
    (hprep : ∀ bl, (cfg.prep bl).isSome = true) (st : String)
    (hst : st = "screen" ∨ st = "mic_audio") (k : Nat) :
    ∀ (es : List Event) (a : Nat) (s : EngineState),
      (∀ e ∈ es, okEvent e = true) → StreamInv st k a s →
      ∃ a2, streamParts st (run cfg s es).2 = consecFrom (k + a + 1) a2 ∧
        StreamInv st k (a + a2) (run cfg s es).1 := by
  intro es
  induction es with
  | nil =>
    intro a s _ hinv
    exact ⟨0, rfl, hinv⟩
  | cons e rest ih =>
    intro a s hok hinv
    obtain ⟨a2, ho1, hinv1⟩ := step_consec cfg hprep st hst k a s e
      (hok e (List.mem_cons_self e rest)) hinv
    obtain ⟨a3, ho2, hinv2⟩ := ih (a + a2) (step cfg s e).1
      (fun e2 he2 => hok e2 (List.mem_cons_of_mem e he2)) hinv1
    refine ⟨a2 + a3, ?_, ?_⟩
    · rw [run_cons]
      show streamParts st
        ((step cfg s e).2 ++ (run cfg (step cfg s e).1 rest).2) = _
      rw [streamParts_append, ho1, ho2]
      have h1 : k + (a + a2) + 1 = (k + a + 1) + a2 := by omega
      rw [h1, consecFrom_append]
    · rw [run_cons]
      show StreamInv st k (a + (a2 + a3)) (run cfg (step cfg s e).1 rest).1
      have h2 : a + (a2 + a3) = (a + a2) + a3 := by omega
      rw [h2]
      exact hinv2

/-! ### Claim C1 -/

/-- C1 counterexample: with no resume checkpoint, the first screen chunk
is produced while the socket is not OPEN and is silently dropped; the
metadata part numbers actually sent for the screen stream are `[2]`,
which is not the gap-free sequence starting at 1 the claim asserts. -/
theorem metadata_parts_consecutive_cex :
    streamParts "screen" (run cfg0 initialState esGap).2 = [2] ∧
    ¬ ∃ n, streamParts "screen" (run cfg0 initialState esGap).2 =
      consecFrom 1 n := by
  have h : streamParts "screen" (run cfg0 initialState esGap).2 = [2] := by
    decide
  refine ⟨h, ?_⟩
  rintro ⟨n, hn⟩
  rw [h] at hn
  cases n with
  | zero => simp [consecFrom] at hn
  | succ m => simp [consecFrom] at hn

/-- C1 amended: per stream, the part numbers carried in the metadata
messages actually sent form the consecutive run `k+1, k+2, …` (strictly
increasing, no gaps, no repeats) starting right after the resume
checkpoint `k`, provided the session is initialized once before the trace,
the transport stays up and local preparation always succeeds; segments
processed while the connection is unready (or failing preparation) are
dropped and leave gaps in the sent sequence, as the counterexample shows.
After `session_recording_initialized` with status `resuming` and
`last_parts_by_stream.screen = 4`, the next screen segment carries part
number 5. -/
theorem metadata_parts_consecutive (cfg : Config)
    (hprep : ∀ bl, (cfg.prep bl).isSome = true) (st : String)
    (hst : st = "screen" ∨ st = "mic_audio") (k : Nat) (s : EngineState)
    (es : List Event) (hok : ∀ e ∈ es, okEvent e = true)
    (hinv : StreamInv st k 0 s) :
    (∃ n, streamParts st (run cfg s es).2 = consecFrom (k + 1) n) ∧
    resumedState.screenPart = 4 ∧
    streamParts "screen" (run cfg0 resumedState [Event.screenChunk [9]]).2 =
      [5] := by
  refine ⟨?_, by decide, by decide⟩
  obtain ⟨n, hn, _⟩ := run_consec cfg hprep st hst k es 0 s hok hinv
  exact ⟨n, hn⟩

theorem metadata_parts_consecutive_witness :
    ∃ n, streamParts "screen"
      (run cfg0 resumedState [Event.screenChunk [9]]).2 =
        consecFrom (4 + 1) n :=
  (metadata_parts_consecutive cfg0 (fun bl => rfl) "screen" (Or.inl rfl) 4
    resumedState [Event.screenChunk [9]] (by decide)
    ⟨0, by decide, by decide, by decide, by decide, by decide⟩).1

end ScreenRecorder
